import Mathlib

set_option linter.unusedVariables false

/-!
Verification of the merkle-tree library (src/lib.rs).

The Rust code is shallowly embedded: bytes are natural numbers, `Vec<u8>` is
`List Nat`, and the pluggable `crypto::digest::Digest` engine is modelled by a
pure digest algorithm `f : List Nat -> List Nat` together with an explicit
engine buffer (the bytes fed since the last `reset`).  Every hash helper in
the source begins with `hasher.reset()`, so the digest it produces depends
only on `f` and on the bytes it feeds; each helper returns the digest paired
with the buffer the engine is left with.  Fallible operations (the `assert!`
calls) are rendered as `Except String`, carrying the assertion message.
-/

/-- Bytes are modelled as natural numbers. -/
abbrev Byte := Nat

/-- Rust: `type Hash = Vec<u8>`. -/
abbrev Hash := List Byte

/-- The pluggable digest algorithm: a pure function from the byte string fed
since the last reset to the resulting digest.  The Rust default is SHA-256;
here it is kept abstract, exactly as the library keeps it pluggable. -/
abbrev DigestFn := List Byte → List Byte

/-- Rust: `const LEAF_SIG: u8 = 0u8`. -/
def LEAF_SIG : Byte := 0

/-- Rust: `const INTERNAL_SIG: u8 = 1u8`. -/
def INTERNAL_SIG : Byte := 1

/-- Rust `fn hash_leaf_node`: reset the engine, feed `[LEAF_SIG]`, feed the
value's bytes, produce the digest.  Returns the digest together with the
engine buffer after the call (the incoming buffer is discarded by the
reset). -/
def hash_leaf_node (f : DigestFn) (value : List Byte) (hasher : List Byte) :
    Hash × List Byte :=
  let h0 : List Byte := []       -- hasher.reset()
  let h1 := h0 ++ [LEAF_SIG]     -- hasher.input(&[LEAF_SIG])
  let h2 := h1 ++ value          -- hasher.input(value.as_bytes())
  (f h2, h2)                     -- hasher.result(...)

/-- Rust `fn hash_internal_node_with_one_child`: reset, feed `[INTERNAL_SIG]`,
feed the left child twice (there is no right node, so left is hashed with
itself), produce the digest. -/
def hash_internal_node_with_one_child (f : DigestFn) (left : Hash)
    (hasher : List Byte) : Hash × List Byte :=
  let h0 : List Byte := []       -- hasher.reset()
  let h1 := h0 ++ [INTERNAL_SIG] -- hasher.input(&[INTERNAL_SIG])
  let h2 := h1 ++ left           -- hasher.input(left.as_slice())
  let h3 := h2 ++ left           -- hasher.input(left.as_slice())
  (f h3, h3)                     -- hasher.result(...)

/-- Rust `fn hash_internal_node`: reset, feed `[INTERNAL_SIG]`, feed left,
feed right, produce the digest. -/
def hash_internal_node (f : DigestFn) (left right : Hash)
    (hasher : List Byte) : Hash × List Byte :=
  let h0 : List Byte := []       -- hasher.reset()
  let h1 := h0 ++ [INTERNAL_SIG] -- hasher.input(&[INTERNAL_SIG])
  let h2 := h1 ++ left           -- hasher.input(left.as_slice())
  let h3 := h2 ++ right          -- hasher.input(right.as_slice())
  (f h3, h3)                     -- hasher.result(...)

/-- The `while i < nodes.len()` loop of `build_upper_level`: pair adjacent
nodes with `hash_internal_node`, and hash a final unpaired node with
`hash_internal_node_with_one_child`.  The engine buffer is threaded through
the calls exactly as the mutable `hasher` reference is in Rust. -/
def upper_level_walk (f : DigestFn) (nodes : List Hash) (hasher : List Byte) :
    List Hash × List Byte :=
  match nodes with
  | [] => ([], hasher)
  | [a] =>
      let r := hash_internal_node_with_one_child f a hasher
      ([r.1], r.2)
  | a :: b :: rest =>
      let r := hash_internal_node f a b hasher
      let w := upper_level_walk f rest r.2
      (r.1 :: w.1, w.2)

/-- Rust `fn build_upper_level`: walk the level pairing nodes, then, if the
resulting row has more than one node and an odd count, duplicate its last
node. -/
def build_upper_level (f : DigestFn) (nodes : List Hash) (hasher : List Byte) :
    List Hash × List Byte :=
  let w := upper_level_walk f nodes hasher
  let row := w.1
  if 1 < row.length ∧ row.length % 2 ≠ 0 then
    (row ++ [row.getLastD []], w.2)  -- row.push(last_node)
  else
    (row, w.2)

/-- The pairing walk produces one output node per (possibly incomplete) pair
of input nodes. -/
theorem upper_level_walk_length (f : DigestFn) :
    ∀ (nodes : List Hash) (hasher : List Byte),
      ((upper_level_walk f nodes hasher).1).length = (nodes.length + 1) / 2
  | [], _ => by simp [upper_level_walk]
  | [a], _ => by simp [upper_level_walk]
  | a :: b :: rest, hasher => by
      simp [upper_level_walk, upper_level_walk_length f rest]
      omega

/-- A level of at least two nodes produces a strictly smaller upper level:
the pairing at least halves the count (rounding up) and the duplication step
adds one node only to a level of at least three that came from at least five
nodes. -/
theorem build_upper_level_length_lt (f : DigestFn) (nodes : List Hash)
    (hasher : List Byte) (h : 2 ≤ nodes.length) :
    ((build_upper_level f nodes hasher).1).length < nodes.length := by
  have hw := upper_level_walk_length f nodes hasher
  simp only [build_upper_level]
  split <;> rename_i hc <;> simp only [List.length_append, List.length_cons,
    List.length_nil, hw] at hc ⊢ <;> omega

/-- A nonempty level produces a nonempty upper level. -/
theorem build_upper_level_length_pos (f : DigestFn) (nodes : List Hash)
    (hasher : List Byte) (h : 1 ≤ nodes.length) :
    1 ≤ ((build_upper_level f nodes hasher).1).length := by
  have hw := upper_level_walk_length f nodes hasher
  simp only [build_upper_level]
  split <;> simp only [List.length_append, List.length_cons, List.length_nil,
    hw] <;> omega

/-- Rust slice assignment `nodes[start..start + xs.len()].clone_from_slice(&xs)`:
replace the slice of `nodes` beginning at `start` by `xs`. -/
def writeSlice (nodes : List Hash) (start : Nat) (xs : List Hash) : List Hash :=
  nodes.take start ++ xs ++ nodes.drop (start + xs.length)

/-- An in-bounds slice assignment preserves the vector's length. -/
theorem writeSlice_length (nodes : List Hash) (start : Nat) (xs : List Hash)
    (h : start + xs.length ≤ nodes.length) :
    (writeSlice nodes start xs).length = nodes.length := by
  simp [writeSlice]
  omega

/-- A slice assignment ending at or before position `c` leaves the suffix of
the vector from `c` on unchanged. -/
theorem writeSlice_drop (nodes : List Hash) (start : Nat) (xs : List Hash)
    (c : Nat) (h : start + xs.length ≤ c) (hc : c ≤ nodes.length) :
    (writeSlice nodes start xs).drop c = nodes.drop c := by
  have hstart : start ≤ nodes.length := by omega
  have hpre : ((nodes.take start ++ xs)).length = start + xs.length := by
    simp
    omega
  simp only [writeSlice, List.append_assoc]
  rw [← List.append_assoc, List.drop_append_eq_append_drop, hpre,
    List.drop_eq_nil_of_le (by omega), List.nil_append, List.drop_drop]
  congr 1
  omega

/-- A slice assignment never empties a nonempty vector. -/
theorem writeSlice_ne_nil (nodes : List Hash) (start : Nat) (xs : List Hash)
    (h : nodes ≠ []) : writeSlice nodes start xs ≠ [] := by
  cases xs with
  | nil => simpa [writeSlice] using h
  | cons y ys => simp [writeSlice]

/-- The `while parents.len() > 1` loop of `build_internal_nodes`: repeatedly
build the next upper level, recompute `upper_level_start` by subtracting one
less than the new level's length, and write the level into the vector.
Returns the final `parents`, the final vector, and the engine buffer. -/
def build_internal_loop (f : DigestFn) (parents : List Hash)
    (upper_level_start : Nat) (nodes : List Hash) (hasher : List Byte) :
    List Hash × List Hash × List Byte :=
  if h : 1 < parents.length then
    let w := build_upper_level f parents hasher
    let start' := upper_level_start - (w.1.length - 1)
    let nodes' := writeSlice nodes start' w.1
    build_internal_loop f w.1 start' nodes' w.2
  else
    (parents, nodes, hasher)
termination_by parents.length
decreasing_by exact build_upper_level_length_lt f parents hasher (by omega)

/-- Rust `fn build_internal_nodes`: build the first upper level from the leaf
slice `nodes[count_internal_nodes..]`, write it at
`count_internal_nodes - parents.len()`, run the level loop, and finally store
the loop's remaining digest at index 0 (`nodes[0] = parents.remove(0)`). -/
def build_internal_nodes (f : DigestFn) (nodes : List Hash)
    (count_internal_nodes : Nat) (hasher : List Byte) :
    List Hash × List Byte :=
  let w := build_upper_level f (nodes.drop count_internal_nodes) hasher
  let upper_level_start := count_internal_nodes - w.1.length
  let nodes1 := writeSlice nodes upper_level_start w.1
  let r := build_internal_loop f w.1 upper_level_start nodes1 w.2
  ((r.2.1).set 0 (r.1.headI), r.2.2)

/-- Rust `fn next_power_of_2`: the bit-smearing trick, exactly as written in
the source (decrement, fold the high bit into all lower positions by
successive shifted ors, increment). -/
def next_power_of_2 (n : Nat) : Nat :=
  let v := n - 1
  let v1 := v ||| (v >>> 1)
  let v2 := v1 ||| (v1 >>> 2)
  let v3 := v2 ||| (v2 >>> 4)
  let v4 := v3 ||| (v3 >>> 8)
  let v5 := v4 ||| (v4 >>> 16)
  v5 + 1

/-- Rust `fn calculate_internal_nodes_count`. -/
def calculate_internal_nodes_count (count_leaves : Nat) : Nat :=
  next_power_of_2 count_leaves - 1

/-- Rust `struct MerkleTree`: the engine (its buffer), the flat node vector,
and the two counts. -/
structure MerkleTree where
  hasher : List Byte
  nodes : List Hash
  count_internal_nodes : Nat
  count_leaves : Nat
deriving Repr, DecidableEq

/-- The `for v in values` leaf loop of `build_with_hasher`: hash every value
with `hash_leaf_node`, threading the engine buffer, collecting the leaf
digests in input order. -/
def hash_leaves (f : DigestFn) (values : List (List Byte))
    (hasher : List Byte) : List Hash × List Byte :=
  match values with
  | [] => ([], hasher)
  | v :: rest =>
      let r := hash_leaf_node f v hasher
      let w := hash_leaves f rest r.2
      (r.1 :: w.1, w.2)

/-- Rust `MerkleTree::build_with_hasher`: assert at least two values (the
assertion message carries the actual count), allocate
`count_internal_nodes + count_leaves` empty slots, write the leaf digests at
positions `count_internal_nodes..`, and build the internal nodes. -/
def MerkleTree.build_with_hasher (f : DigestFn) (values : List (List Byte))
    (hasher : List Byte) : Except String MerkleTree :=
  let count_leaves := values.length
  if 1 < count_leaves then
    let count_internal_nodes := calculate_internal_nodes_count count_leaves
    let lv := hash_leaves f values hasher
    -- vec![Vec::new(); cin + n] with the leaves then written at [cin, cin+n)
    let nodes := List.replicate count_internal_nodes ([] : Hash) ++ lv.1
    let r := build_internal_nodes f nodes count_internal_nodes lv.2
    Except.ok (MerkleTree.mk r.2 r.1 count_internal_nodes count_leaves)
  else
    Except.error ("expected more then 1 value, received " ++
      toString count_leaves)

/-- Rust `MerkleTree::root_hash`: a copy of `nodes[0]`. -/
def MerkleTree.root_hash (t : MerkleTree) : List Byte :=
  t.nodes.headI

/-- One lower-case hexadecimal digit. -/
def hex_digit (n : Nat) : Char :=
  if n < 10 then Char.ofNat (48 + n) else Char.ofNat (97 + (n - 10))

/-- Two lower-case hexadecimal digits of one byte. -/
def byte_to_hex (b : Byte) : List Char :=
  [hex_digit (b / 16 % 16), hex_digit (b % 16)]

/-- Lower-case hexadecimal rendering of a byte string
(`rustc_serialize::hex::ToHex`). -/
def to_hex (bytes : List Byte) : String :=
  String.mk ((bytes.map byte_to_hex).flatten)

/-- Rust `MerkleTree::root_hash_str`: `nodes[0]` rendered in hex. -/
def MerkleTree.root_hash_str (t : MerkleTree) : String :=
  to_hex t.nodes.headI

/-- Rust `MerkleTree::verify`: assert the position addresses a leaf, then
compare the stored digest at `count_internal_nodes + position` with the
recomputed `hash_leaf_node` of the value, using (and thereby mutating) the
tree's bound engine.  Returns the comparison together with the tree as left
after the call. -/
def MerkleTree.verify (f : DigestFn) (t : MerkleTree) (position : Nat)
    (value : List Byte) : Except String (Bool × MerkleTree) :=
  if position < t.count_leaves then
    let r := hash_leaf_node f value t.hasher
    Except.ok ((t.nodes.getD (t.count_internal_nodes + position) []) == r.1,
      MerkleTree.mk r.2 t.nodes t.count_internal_nodes t.count_leaves)
  else
    Except.error "position does not relate to any leaf"

/-- Modelled from the spec (C2's reference algorithm): one pairing pass over a
level — hash each complete pair `(a, b)` with `hash_internal`, a final
unpaired digest with `hash_internal_one_child`. -/
def spec_pair_up (f : DigestFn) : List Hash → List Hash
  | [] => []
  | [a] => [(hash_internal_node_with_one_child f a []).1]
  | a :: b :: rest =>
      (hash_internal_node f a b []).1 :: spec_pair_up f rest

/-- Modelled from the spec (C2's reference algorithm): after forming a level,
if it has more than one node and an odd count, duplicate its last node. -/
def spec_next_level (f : DigestFn) (level : List Hash) : List Hash :=
  let row := spec_pair_up f level
  if 1 < row.length ∧ row.length % 2 ≠ 0 then row ++ [row.getLastD []]
  else row

/-- One reference pairing pass produces one node per (possibly incomplete)
pair. -/
theorem spec_pair_up_length (f : DigestFn) :
    ∀ level : List Hash, (spec_pair_up f level).length = (level.length + 1) / 2
  | [] => by simp [spec_pair_up]
  | [a] => by simp [spec_pair_up]
  | a :: b :: rest => by
      simp [spec_pair_up, spec_pair_up_length f rest]
      omega

/-- One reference level pass strictly shrinks a level of at least two
nodes. -/
theorem spec_next_level_length_lt (f : DigestFn) (level : List Hash)
    (h : 2 ≤ level.length) :
    (spec_next_level f level).length < level.length := by
  have hw := spec_pair_up_length f level
  simp only [spec_next_level]
  split <;> rename_i hc <;> simp only [List.length_append, List.length_cons,
    List.length_nil, hw] at hc ⊢ <;> omega

/-- Modelled from the spec (C2's reference algorithm): repeat the level pass
until one digest remains; that digest is the root. -/
def spec_root_from (f : DigestFn) (level : List Hash) : Hash :=
  if h : 1 < level.length then spec_root_from f (spec_next_level f level)
  else level.headI
termination_by level.length
decreasing_by exact spec_next_level_length_lt f level (by omega)

/-- Modelled from the spec (C2's reference algorithm): hash each block with
`hash_leaf` in input order, then reduce level by level to the root. -/
def spec_reference_root (f : DigestFn) (blocks : List (List Byte)) : Hash :=
  spec_root_from f (blocks.map (fun b => (hash_leaf_node f b []).1))

/-- The digests produced by the source's pairing walk are exactly the
reference pairing pass (the engine buffer does not influence them, since each
hash starts with a reset). -/
theorem upper_level_walk_eq_spec (f : DigestFn) :
    ∀ (nodes : List Hash) (hasher : List Byte),
      (upper_level_walk f nodes hasher).1 = spec_pair_up f nodes
  | [], _ => rfl
  | [a], _ => rfl
  | a :: b :: rest, hasher => by
      simp only [upper_level_walk, spec_pair_up]
      exact congrArg _ (upper_level_walk_eq_spec f rest _)

/-- The digests produced by the source's `build_upper_level` are exactly the
reference level pass. -/
theorem build_upper_level_eq_spec (f : DigestFn) (nodes : List Hash)
    (hasher : List Byte) :
    (build_upper_level f nodes hasher).1 = spec_next_level f nodes := by
  simp only [build_upper_level, spec_next_level,
    upper_level_walk_eq_spec f nodes hasher]
  split <;> rfl

/-- The `parents` vector left by the level loop holds exactly the reference
root (as its head). -/
theorem build_internal_loop_fst (f : DigestFn) (ps : List Hash) (st : Nat)
    (nodes : List Hash) (hasher : List Byte) :
    ((build_internal_loop f ps st nodes hasher).1).headI = spec_root_from f ps := by
  by_cases h : 1 < ps.length
  · rw [build_internal_loop.eq_def]
    simp only [dif_pos h]
    rw [build_internal_loop_fst f _ _ _ _, build_upper_level_eq_spec]
    conv_rhs => rw [spec_root_from.eq_def]
    rw [dif_pos h]
  · rw [build_internal_loop.eq_def, spec_root_from.eq_def]
    simp only [dif_neg h]
termination_by ps.length
decreasing_by exact build_upper_level_length_lt f ps hasher (by omega)

/-- The level loop exits with a single digest. -/
theorem build_internal_loop_fst_length (f : DigestFn) (ps : List Hash)
    (st : Nat) (nodes : List Hash) (hasher : List Byte)
    (h1 : 1 ≤ ps.length) :
    ((build_internal_loop f ps st nodes hasher).1).length = 1 := by
  by_cases h : 1 < ps.length
  · rw [build_internal_loop.eq_def]
    simp only [dif_pos h]
    exact build_internal_loop_fst_length f _ _ _ _
      (build_upper_level_length_pos f ps hasher (by omega))
  · rw [build_internal_loop.eq_def]
    simp only [dif_neg h]
    omega
termination_by ps.length
decreasing_by exact build_upper_level_length_lt f ps hasher (by omega)

/-- Frame lemma for the level loop: as long as the current level fits below
position `c` (which its start invariant guarantees), the loop writes only
below `c`: it preserves the vector's length and everything from `c` on. -/
theorem build_internal_loop_nodes (f : DigestFn) (ps : List Hash) (st : Nat)
    (nodes : List Hash) (hasher : List Byte) (c : Nat)
    (hst : st + ps.length ≤ c) (hc : c ≤ nodes.length) :
    ((build_internal_loop f ps st nodes hasher).2.1).length = nodes.length ∧
    ((build_internal_loop f ps st nodes hasher).2.1).drop c = nodes.drop c := by
  by_cases h : 1 < ps.length
  · have hlt := build_upper_level_length_lt f ps hasher (by omega)
    have hpos := build_upper_level_length_pos f ps hasher (by omega)
    have hin : (st - ((build_upper_level f ps hasher).1.length - 1)) +
        (build_upper_level f ps hasher).1.length ≤ c := by omega
    have hwlen : (writeSlice nodes
        (st - ((build_upper_level f ps hasher).1.length - 1))
        (build_upper_level f ps hasher).1).length = nodes.length :=
      writeSlice_length _ _ _ (by omega)
    have hwdrop : (writeSlice nodes
        (st - ((build_upper_level f ps hasher).1.length - 1))
        (build_upper_level f ps hasher).1).drop c = nodes.drop c :=
      writeSlice_drop _ _ _ c hin hc
    rw [build_internal_loop.eq_def]
    simp only [dif_pos h]
    obtain ⟨ih1, ih2⟩ := build_internal_loop_nodes f
      (build_upper_level f ps hasher).1
      (st - ((build_upper_level f ps hasher).1.length - 1))
      (writeSlice nodes (st - ((build_upper_level f ps hasher).1.length - 1))
        (build_upper_level f ps hasher).1)
      (build_upper_level f ps hasher).2 c hin (by omega)
    exact ⟨ih1.trans hwlen, ih2.trans hwdrop⟩
  · rw [build_internal_loop.eq_def]
    simp only [dif_neg h]
    simp
termination_by ps.length
decreasing_by exact build_upper_level_length_lt f ps hasher (by omega)

/-- Bitwise or can only set bits: the left operand never exceeds the or. -/
theorem nat_le_or_self_left (a b : Nat) : a ≤ a ||| b := by
  apply Nat.le_of_testBit
  intro i h
  simp [Nat.testBit_or, h]

/-- The source's bit-smearing `next_power_of_2` never answers below its
input: each shifted or only adds bits to `n - 1`, and the final increment
undoes the initial decrement. -/
theorem le_next_power_of_2 (n : Nat) : n ≤ next_power_of_2 n := by
  have key : ∀ v : Nat, v ≤ (((((v ||| (v >>> 1)) ||| ((v ||| (v >>> 1)) >>> 2)) ||| (((v ||| (v >>> 1)) ||| ((v ||| (v >>> 1)) >>> 2)) >>> 4)) ||| ((((v ||| (v >>> 1)) ||| ((v ||| (v >>> 1)) >>> 2)) ||| (((v ||| (v >>> 1)) ||| ((v ||| (v >>> 1)) >>> 2)) >>> 4)) >>> 8)) ||| (((((v ||| (v >>> 1)) ||| ((v ||| (v >>> 1)) >>> 2)) ||| (((v ||| (v >>> 1)) ||| ((v ||| (v >>> 1)) >>> 2)) >>> 4)) ||| ((((v ||| (v >>> 1)) ||| ((v ||| (v >>> 1)) >>> 2)) ||| (((v ||| (v >>> 1)) ||| ((v ||| (v >>> 1)) >>> 2)) >>> 4)) >>> 8)) >>> 16)) := by
    intro v
    refine le_trans (nat_le_or_self_left v (v >>> 1)) ?_
    refine le_trans (nat_le_or_self_left (v ||| (v >>> 1)) ((v ||| (v >>> 1)) >>> 2)) ?_
    refine le_trans (nat_le_or_self_left ((v ||| (v >>> 1)) ||| ((v ||| (v >>> 1)) >>> 2)) (((v ||| (v >>> 1)) ||| ((v ||| (v >>> 1)) >>> 2)) >>> 4)) ?_
    refine le_trans (nat_le_or_self_left (((v ||| (v >>> 1)) ||| ((v ||| (v >>> 1)) >>> 2)) ||| (((v ||| (v >>> 1)) ||| ((v ||| (v >>> 1)) >>> 2)) >>> 4)) ((((v ||| (v >>> 1)) ||| ((v ||| (v >>> 1)) >>> 2)) ||| (((v ||| (v >>> 1)) ||| ((v ||| (v >>> 1)) >>> 2)) >>> 4)) >>> 8)) ?_
    exact nat_le_or_self_left ((((v ||| (v >>> 1)) ||| ((v ||| (v >>> 1)) >>> 2)) ||| (((v ||| (v >>> 1)) ||| ((v ||| (v >>> 1)) >>> 2)) >>> 4)) ||| ((((v ||| (v >>> 1)) ||| ((v ||| (v >>> 1)) >>> 2)) ||| (((v ||| (v >>> 1)) ||| ((v ||| (v >>> 1)) >>> 2)) >>> 4)) >>> 8)) (((((v ||| (v >>> 1)) ||| ((v ||| (v >>> 1)) >>> 2)) ||| (((v ||| (v >>> 1)) ||| ((v ||| (v >>> 1)) >>> 2)) >>> 4)) ||| ((((v ||| (v >>> 1)) ||| ((v ||| (v >>> 1)) >>> 2)) ||| (((v ||| (v >>> 1)) ||| ((v ||| (v >>> 1)) >>> 2)) >>> 4)) >>> 8)) >>> 16)
  have hk := key (n - 1)
  simp only [next_power_of_2]
  omega

/-- Setting slot 0 leaves every positive-position suffix unchanged. -/
theorem drop_set_zero (l : List Hash) (x : Hash) (c : Nat) (hc : 1 ≤ c) :
    (l.set 0 x).drop c = l.drop c := by
  cases l with
  | nil => simp
  | cons a t =>
      obtain ⟨c', rfl⟩ : ∃ c', c = c' + 1 := ⟨c - 1, by omega⟩
      simp

/-- Setting slot 0 of a nonempty vector makes the written value its head. -/
theorem headI_set_zero (l : List Hash) (x : Hash) (h : l ≠ []) :
    (l.set 0 x).headI = x := by
  cases l with
  | nil => exact absurd rfl h
  | cons a t => simp

/-- The leaf loop produces exactly the leaf digests of the values, in input
order (the threaded engine buffer does not influence them). -/
theorem hash_leaves_fst (f : DigestFn) :
    ∀ (values : List (List Byte)) (hasher : List Byte),
      (hash_leaves f values hasher).1 =
        values.map (fun v => (hash_leaf_node f v []).1)
  | [], _ => rfl
  | v :: rest, hasher => by
      simp only [hash_leaves, List.map]
      exact congrArg _ (hash_leaves_fst f rest _)

/-- On at least two values, `build_with_hasher` takes its success branch and
returns the tree assembled from the leaf digests and the internal-node
pass. -/
theorem build_ok_eq (f : DigestFn) (values : List (List Byte))
    (hasher : List Byte) (hn : 1 < values.length) :
    MerkleTree.build_with_hasher f values hasher =
      Except.ok (MerkleTree.mk
        (build_internal_nodes f
          (List.replicate (calculate_internal_nodes_count values.length)
            ([] : Hash) ++ (hash_leaves f values hasher).1)
          (calculate_internal_nodes_count values.length)
          (hash_leaves f values hasher).2).2
        (build_internal_nodes f
          (List.replicate (calculate_internal_nodes_count values.length)
            ([] : Hash) ++ (hash_leaves f values hasher).1)
          (calculate_internal_nodes_count values.length)
          (hash_leaves f values hasher).2).1
        (calculate_internal_nodes_count values.length)
        values.length) := by
  simp [MerkleTree.build_with_hasher, hn]

/-- What `build_internal_nodes` does to a vector whose leaf section starts at
`c`: it leaves the leaf section untouched, and the head of the vector becomes
the reference root of the leaf section. -/
theorem build_internal_nodes_spec (f : DigestFn) (nodes : List Hash) (c : Nat)
    (hasher : List Byte) (hlen : c ≤ nodes.length) (hc1 : 1 ≤ c)
    (hfit : ((build_upper_level f (nodes.drop c) hasher).1).length ≤ c) :
    ((build_internal_nodes f nodes c hasher).1).drop c = nodes.drop c ∧
    ((build_internal_nodes f nodes c hasher).1).headI =
      spec_root_from f (spec_next_level f (nodes.drop c)) := by
  have hw1len : (writeSlice nodes
      (c - ((build_upper_level f (nodes.drop c) hasher).1).length)
      (build_upper_level f (nodes.drop c) hasher).1).length = nodes.length :=
    writeSlice_length _ _ _ (by omega)
  have hw1drop : (writeSlice nodes
      (c - ((build_upper_level f (nodes.drop c) hasher).1).length)
      (build_upper_level f (nodes.drop c) hasher).1).drop c = nodes.drop c :=
    writeSlice_drop _ _ _ c (by omega) hlen
  obtain ⟨hl1, hl2⟩ := build_internal_loop_nodes f
    (build_upper_level f (nodes.drop c) hasher).1
    (c - ((build_upper_level f (nodes.drop c) hasher).1).length)
    (writeSlice nodes
      (c - ((build_upper_level f (nodes.drop c) hasher).1).length)
      (build_upper_level f (nodes.drop c) hasher).1)
    (build_upper_level f (nodes.drop c) hasher).2 c (by omega)
    (by omega)
  have hne : ((build_internal_loop f
      (build_upper_level f (nodes.drop c) hasher).1
      (c - ((build_upper_level f (nodes.drop c) hasher).1).length)
      (writeSlice nodes
        (c - ((build_upper_level f (nodes.drop c) hasher).1).length)
        (build_upper_level f (nodes.drop c) hasher).1)
      (build_upper_level f (nodes.drop c) hasher).2).2.1) ≠ [] := by
    intro e
    rw [e] at hl1
    simp at hl1
    omega
  constructor
  · simp only [build_internal_nodes]
    rw [drop_set_zero _ _ _ hc1, hl2, hw1drop]
  · simp only [build_internal_nodes]
    rw [headI_set_zero _ _ hne, build_internal_loop_fst,
      build_upper_level_eq_spec]

/-- Characterization of a successfully built tree: the counts are the
computed ones, the leaf section holds the leaf digests of the values in input
order, and the root hash is the reference level-by-level root. -/
theorem build_with_hasher_ok (f : DigestFn) (values : List (List Byte))
    (hasher : List Byte) (t : MerkleTree) (hn : 2 ≤ values.length)
    (ht : MerkleTree.build_with_hasher f values hasher = Except.ok t) :
    t.count_internal_nodes = calculate_internal_nodes_count values.length ∧
    t.count_leaves = values.length ∧
    t.nodes.drop t.count_internal_nodes =
      values.map (fun v => (hash_leaf_node f v []).1) ∧
    t.root_hash = spec_reference_root f values := by
  rw [build_ok_eq f values hasher (by omega)] at ht
  injection ht with ht'
  subst ht'
  have hnp := le_next_power_of_2 values.length
  have hc1 : 1 ≤ calculate_internal_nodes_count values.length := by
    simp only [calculate_internal_nodes_count]
    omega
  have hlv : (hash_leaves f values hasher).1 =
      values.map (fun v => (hash_leaf_node f v []).1) := hash_leaves_fst f values hasher
  have hlvlen : ((hash_leaves f values hasher).1).length = values.length := by
    rw [hlv]
    simp
  have hd0 : (List.replicate (calculate_internal_nodes_count values.length)
      ([] : Hash) ++ (hash_leaves f values hasher).1).drop
        (calculate_internal_nodes_count values.length) =
      (hash_leaves f values hasher).1 :=
    List.drop_left' (by simp)
  have hlen : calculate_internal_nodes_count values.length ≤
      (List.replicate (calculate_internal_nodes_count values.length)
        ([] : Hash) ++ (hash_leaves f values hasher).1).length := by
    simp
  have hfit : ((build_upper_level f
      ((List.replicate (calculate_internal_nodes_count values.length)
        ([] : Hash) ++ (hash_leaves f values hasher).1).drop
          (calculate_internal_nodes_count values.length))
      (hash_leaves f values hasher).2).1).length ≤
      calculate_internal_nodes_count values.length := by
    rw [hd0]
    have := build_upper_level_length_lt f (hash_leaves f values hasher).1
      (hash_leaves f values hasher).2 (by omega)
    simp only [calculate_internal_nodes_count]
    omega
  obtain ⟨hdrop, hroot⟩ := build_internal_nodes_spec f
    (List.replicate (calculate_internal_nodes_count values.length)
      ([] : Hash) ++ (hash_leaves f values hasher).1)
    (calculate_internal_nodes_count values.length)
    (hash_leaves f values hasher).2 hlen hc1 hfit
  refine ⟨rfl, rfl, ?_, ?_⟩
  · simpa [hd0, hlv] using hdrop
  · show (build_internal_nodes f _ _ _).1.headI = _
    rw [hroot, hd0, hlv, spec_reference_root]
    conv_rhs => rw [spec_root_from.eq_def]
    rw [dif_pos (by simp; omega)]

/-- A successfully built tree stores, at slot `count_internal_nodes + i`, the
leaf digest of the i-th input value. -/
theorem build_leaf_slot (f : DigestFn) (values : List (List Byte))
    (hasher : List Byte) (t : MerkleTree) (hn : 2 ≤ values.length)
    (ht : MerkleTree.build_with_hasher f values hasher = Except.ok t)
    (i : Nat) (hi : i < values.length) :
    t.nodes.getD (t.count_internal_nodes + i) [] =
      f (LEAF_SIG :: values[i]) := by
  obtain ⟨hc, hl, hdrop, hroot⟩ :=
    build_with_hasher_ok f values hasher t hn ht
  rw [List.getD_eq_getElem?_getD, ← List.getElem?_drop, hdrop,
    List.getElem?_map, List.getElem?_eq_getElem hi]
  simp [hash_leaf_node]

/-- C1: for every input list of at least 2 blocks hashed with a
collision-free digest algorithm and every position `i` below the leaf count,
`verify(i, block_i)` answers true for the block originally supplied at
position `i`, and `verify(i, v)` answers false for every value `v` whose
bytes differ from that block's. -/
theorem C1_verify_soundness (f : DigestFn) (hf : Function.Injective f)
    (values : List (List Byte)) (hasher : List Byte) (t : MerkleTree)
    (hn : 2 ≤ values.length)
    (ht : MerkleTree.build_with_hasher f values hasher = Except.ok t)
    (i : Nat) (hi : i < values.length) (v : List Byte) :
    Except.map Prod.fst (MerkleTree.verify f t i values[i]) =
      Except.ok true ∧
    (v ≠ values[i] →
      Except.map Prod.fst (MerkleTree.verify f t i v) = Except.ok false) := by
  obtain ⟨hc, hl, hdrop, hroot⟩ := build_with_hasher_ok f values hasher t hn ht
  have hslot := build_leaf_slot f values hasher t hn ht i hi
  have hslot2 := hslot
  rw [List.getD_eq_getElem?_getD] at hslot2
  have hpos : i < t.count_leaves := by omega
  constructor
  · simp only [MerkleTree.verify, if_pos hpos, Except.map]
    simp [hslot2, hslot, hash_leaf_node]
  · intro hne
    simp only [MerkleTree.verify, if_pos hpos, Except.map]
    simp only [hslot, hash_leaf_node, List.nil_append, List.singleton_append]
    have : f (LEAF_SIG :: values[i]) ≠ f (LEAF_SIG :: v) := by
      intro he
      exact hne (List.cons.inj (hf he)).2.symm
    simp [beq_eq_false_iff_ne, this]

/-- C2: for every input list of at least 2 blocks, the root hash produced by
the build equals the reference level-by-level algorithm's root: hash each
block with the leaf hash in input order, then repeatedly pair with
`hash_internal_node` (a final unpaired digest with
`hash_internal_node_with_one_child`), duplicating the last node of every
formed level with more than one node and an odd count, until one digest
remains. -/
theorem C2_root_matches_reference (f : DigestFn) (values : List (List Byte))
    (hasher : List Byte) (t : MerkleTree) (hn : 2 ≤ values.length)
    (ht : MerkleTree.build_with_hasher f values hasher = Except.ok t) :
    t.root_hash = spec_reference_root f values :=
  (build_with_hasher_ok f values hasher t hn ht).2.2.2

/-- Witness for C2 at three concrete blocks with the identity digest. -/
theorem C2_root_matches_reference_witness :
    (MerkleTree.mk [1,1,0,0,0,1,1,0,2,0,2]
      [[1,1,0,0,0,1,1,0,2,0,2],[1,1,0,0,0,1,1,0,2,0,2],[1,0,2,0,2],
       [0,0],[0,1],[0,2]] 3 3).root_hash =
      spec_reference_root (fun l => l) [[0],[1],[2]] :=
  C2_root_matches_reference (fun l => l) [[0],[1],[2]] []
    (MerkleTree.mk [1,1,0,0,0,1,1,0,2,0,2]
      [[1,1,0,0,0,1,1,0,2,0,2],[1,1,0,0,0,1,1,0,2,0,2],[1,0,2,0,2],
       [0,0],[0,1],[0,2]] 3 3)
    (by decide)
    (by simp [MerkleTree.build_with_hasher, build_internal_nodes,
      build_internal_loop, build_upper_level, upper_level_walk, hash_leaves,
      hash_leaf_node, hash_internal_node, hash_internal_node_with_one_child,
      writeSlice, calculate_internal_nodes_count, next_power_of_2,
      LEAF_SIG, INTERNAL_SIG])

/-- C3 fails on the code: on three blocks (identity digest), slot 1 of the
node vector holds the root digest — the level loop recomputes
`upper_level_start` one slot too high (`-= parents.len() - 1`) and so writes
the top level at slot 1 instead of slot 0 — whereas breadth-first
complete-binary-tree indexing requires slot 1 (the root's left child) to hold
`hash_internal` of the first two leaf digests. -/
theorem C3_bfs_layout_violated :
    ∃ t : MerkleTree,
      MerkleTree.build_with_hasher (fun l => l) [[0],[1],[2]] [] =
        Except.ok t ∧
      t.nodes.getD 1 [] = t.root_hash ∧
      t.nodes.getD 1 [] ≠
        (hash_internal_node (fun l => l)
          (hash_leaf_node (fun l => l) [0] []).1
          (hash_leaf_node (fun l => l) [1] []).1 []).1 := by
  refine ⟨MerkleTree.mk [1,1,0,0,0,1,1,0,2,0,2]
    [[1,1,0,0,0,1,1,0,2,0,2],[1,1,0,0,0,1,1,0,2,0,2],[1,0,2,0,2],
     [0,0],[0,1],[0,2]] 3 3, ?_, by decide, by decide⟩
  simp [MerkleTree.build_with_hasher, build_internal_nodes,
    build_internal_loop, build_upper_level, upper_level_walk, hash_leaves,
    hash_leaf_node, hash_internal_node, hash_internal_node_with_one_child,
    writeSlice, calculate_internal_nodes_count, next_power_of_2,
    LEAF_SIG, INTERNAL_SIG]

/-- C4: building is deterministic — for a fixed digest algorithm, engine
state and input sequence of at least two blocks, two builds yield the same
root hash and the same hex rendering. -/
theorem C4_build_deterministic (f : DigestFn) (values : List (List Byte))
    (hasher : List Byte) (t1 t2 : MerkleTree) (hn : 2 ≤ values.length)
    (h1 : MerkleTree.build_with_hasher f values hasher = Except.ok t1)
    (h2 : MerkleTree.build_with_hasher f values hasher = Except.ok t2) :
    t1.root_hash = t2.root_hash ∧ t1.root_hash_str = t2.root_hash_str := by
  rw [h1] at h2
  injection h2 with h
  subst h
  exact ⟨rfl, rfl⟩

/-- Witness for C4 at two concrete blocks with the identity digest. -/
theorem C4_build_deterministic_witness :
    (MerkleTree.mk [1,0,0,0,1] [[1,0,0,0,1],[0,0],[0,1]] 1 2).root_hash =
      (MerkleTree.mk [1,0,0,0,1] [[1,0,0,0,1],[0,0],[0,1]] 1 2).root_hash ∧
    (MerkleTree.mk [1,0,0,0,1] [[1,0,0,0,1],[0,0],[0,1]] 1 2).root_hash_str =
      (MerkleTree.mk [1,0,0,0,1] [[1,0,0,0,1],[0,0],[0,1]] 1 2).root_hash_str :=
  C4_build_deterministic (fun l => l) [[0],[1]] []
    (MerkleTree.mk [1,0,0,0,1] [[1,0,0,0,1],[0,0],[0,1]] 1 2)
    (MerkleTree.mk [1,0,0,0,1] [[1,0,0,0,1],[0,0],[0,1]] 1 2)
    (by decide)
    (by simp [MerkleTree.build_with_hasher, build_internal_nodes,
      build_internal_loop, build_upper_level, upper_level_walk, hash_leaves,
      hash_leaf_node, hash_internal_node, hash_internal_node_with_one_child,
      writeSlice, calculate_internal_nodes_count, next_power_of_2,
      LEAF_SIG, INTERNAL_SIG])
    (by simp [MerkleTree.build_with_hasher, build_internal_nodes,
      build_internal_loop, build_upper_level, upper_level_walk, hash_leaves,
      hash_leaf_node, hash_internal_node, hash_internal_node_with_one_child,
      writeSlice, calculate_internal_nodes_count, next_power_of_2,
      LEAF_SIG, INTERNAL_SIG])

/-- C5: on fewer than two blocks, the build fails fast with an error message
carrying the actual count received and returns no tree; on two or more
blocks, it succeeds. -/
theorem C5_minimum_size (f : DigestFn) (values : List (List Byte))
    (hasher : List Byte) :
    (values.length < 2 →
      MerkleTree.build_with_hasher f values hasher =
        Except.error ("expected more then 1 value, received " ++
          toString values.length) ∧
      ∃ pre : String,
        ("expected more then 1 value, received " ++ toString values.length) =
          pre ++ toString values.length) ∧
    (2 ≤ values.length →
      ∃ t, MerkleTree.build_with_hasher f values hasher = Except.ok t) := by
  constructor
  · intro h
    refine ⟨?_, ⟨"expected more then 1 value, received ", rfl⟩⟩
    simp [MerkleTree.build_with_hasher, show ¬ 1 < values.length by omega]
  · intro h
    exact ⟨_, build_ok_eq f values hasher (by omega)⟩

/-- Witness for C5: one block fails with the message carrying count 1, two
blocks succeed. -/
theorem C5_minimum_size_witness :
    (MerkleTree.build_with_hasher (fun l => l) [[7]] [] =
      Except.error ("expected more then 1 value, received " ++
        toString ([[7]] : List (List Byte)).length) ∧
     ∃ pre : String,
       ("expected more then 1 value, received " ++
         toString ([[7]] : List (List Byte)).length) =
         pre ++ toString ([[7]] : List (List Byte)).length) ∧
    (∃ t, MerkleTree.build_with_hasher (fun l => l) [[0],[1]] [] =
      Except.ok t) :=
  ⟨(C5_minimum_size (fun l => l) [[7]] []).1 (by decide),
   (C5_minimum_size (fun l => l) [[0],[1]] []).2 (by decide)⟩

/-- C6: verifying a position at or beyond the leaf count is an
assertion-level failure, not a boolean false. -/
theorem C6_verify_position_out_of_range (f : DigestFn) (t : MerkleTree)
    (position : Nat) (value : List Byte) (h : t.count_leaves ≤ position) :
    MerkleTree.verify f t position value =
      Except.error "position does not relate to any leaf" := by
  simp [MerkleTree.verify, show ¬ position < t.count_leaves by omega]

/-- Witness for C6: position 5 on a two-leaf tree fails. -/
theorem C6_verify_position_out_of_range_witness :
    MerkleTree.verify (fun l => l)
      (MerkleTree.mk [1,0,0,0,1] [[1,0,0,0,1],[0,0],[0,1]] 1 2) 5 [0] =
      Except.error "position does not relate to any leaf" :=
  C6_verify_position_out_of_range (fun l => l)
    (MerkleTree.mk [1,0,0,0,1] [[1,0,0,0,1],[0,0],[0,1]] 1 2) 5 [0]
    (by decide)

/-- C7: hashing a node without a sibling is exactly hashing it paired with
itself — `hash_internal_node_with_one_child` agrees with `hash_internal_node`
applied to the same digest twice, digest and engine state alike, for every
digest algorithm and engine state. -/
theorem C7_padding_is_self_pairing (f : DigestFn) (left : Hash)
    (hasher : List Byte) :
    hash_internal_node_with_one_child f left hasher =
      hash_internal_node f left left hasher := rfl

/-- C8: domain separation — the leaf hash digests the tag byte 0x00 followed
by the value's bytes, the internal hash digests the tag byte 0x01 followed by
the left then the right child, and the two tags are the distinct constants
0 and 1. -/
theorem C8_domain_separation (f : DigestFn)
    (value left right hasher : List Byte) :
    (hash_leaf_node f value hasher).1 = f ([LEAF_SIG] ++ value) ∧
    (hash_internal_node f left right hasher).1 =
      f ([INTERNAL_SIG] ++ left ++ right) ∧
    LEAF_SIG = 0 ∧ INTERNAL_SIG = 1 ∧ LEAF_SIG ≠ INTERNAL_SIG :=
  ⟨rfl, rfl, rfl, rfl, by decide⟩

/-- C9: verifying an in-range position never changes the tree's stored node
digests or its counts — only the bound engine's state — and the boolean a
later verification returns is the same on the tree before and after, for
every position and value. -/
theorem C9_verify_frame (f : DigestFn) (t : MerkleTree) (position : Nat)
    (value : List Byte) (hp : position < t.count_leaves) :
    ∃ b t', MerkleTree.verify f t position value = Except.ok (b, t') ∧
      t'.nodes = t.nodes ∧
      t'.count_internal_nodes = t.count_internal_nodes ∧
      t'.count_leaves = t.count_leaves ∧
      ∀ (p2 : Nat) (v2 : List Byte),
        Except.map Prod.fst (MerkleTree.verify f t' p2 v2) =
          Except.map Prod.fst (MerkleTree.verify f t p2 v2) := by
  refine ⟨(t.nodes.getD (t.count_internal_nodes + position) []) ==
      (hash_leaf_node f value t.hasher).1,
    MerkleTree.mk (hash_leaf_node f value t.hasher).2 t.nodes
      t.count_internal_nodes t.count_leaves, ?_, rfl, rfl, rfl, ?_⟩
  · simp [MerkleTree.verify, hp]
  · intro p2 v2
    by_cases h2 : p2 < t.count_leaves
    · simp [MerkleTree.verify, h2, hash_leaf_node, Except.map]
    · simp [MerkleTree.verify, h2, Except.map]

/-- Witness for C9 on a concrete two-leaf tree. -/
theorem C9_verify_frame_witness :
    ∃ b t', MerkleTree.verify (fun l => l)
        (MerkleTree.mk [1,0,0,0,1] [[1,0,0,0,1],[0,0],[0,1]] 1 2) 0 [9] =
        Except.ok (b, t') ∧
      t'.nodes = (MerkleTree.mk [1,0,0,0,1]
        [[1,0,0,0,1],[0,0],[0,1]] 1 2).nodes ∧
      t'.count_internal_nodes = (MerkleTree.mk [1,0,0,0,1]
        [[1,0,0,0,1],[0,0],[0,1]] 1 2).count_internal_nodes ∧
      t'.count_leaves = (MerkleTree.mk [1,0,0,0,1]
        [[1,0,0,0,1],[0,0],[0,1]] 1 2).count_leaves ∧
      ∀ (p2 : Nat) (v2 : List Byte),
        Except.map Prod.fst (MerkleTree.verify (fun l => l) t' p2 v2) =
          Except.map Prod.fst (MerkleTree.verify (fun l => l)
            (MerkleTree.mk [1,0,0,0,1] [[1,0,0,0,1],[0,0],[0,1]] 1 2)
            p2 v2) :=
  C9_verify_frame (fun l => l)
    (MerkleTree.mk [1,0,0,0,1] [[1,0,0,0,1],[0,0],[0,1]] 1 2) 0 [9]
    (by decide)

/-- C10: the build terminates — every call of `build_upper_level` on a level
of at least two digests yields a strictly smaller level, and the level loop
of `build_internal_nodes` always exits with a single root digest. -/
theorem C10_build_terminates (f : DigestFn) :
    (∀ (nodes : List Hash) (hasher : List Byte), 2 ≤ nodes.length →
      ((build_upper_level f nodes hasher).1).length < nodes.length) ∧
    (∀ (parents : List Hash) (upper_level_start : Nat) (nodes : List Hash)
      (hasher : List Byte), 1 ≤ parents.length →
      ((build_internal_loop f parents upper_level_start nodes
        hasher).1).length = 1) :=
  ⟨fun nodes hasher h => build_upper_level_length_lt f nodes hasher h,
   fun ps st nodes hasher h =>
     build_internal_loop_fst_length f ps st nodes hasher h⟩

/-- Witness for C10 at concrete levels. -/
theorem C10_build_terminates_witness :
    ((build_upper_level (fun l => l) [[0],[1],[2]] []).1).length <
      ([[0],[1],[2]] : List Hash).length ∧
    ((build_internal_loop (fun l => l) [[0],[1]] 1
      [[],[],[]] []).1).length = 1 :=
  ⟨(C10_build_terminates (fun l => l)).1 [[0],[1],[2]] [] (by decide),
   (C10_build_terminates (fun l => l)).2 [[0],[1]] 1 [[],[],[]] []
     (by decide)⟩

/-- Witness for C1 on a concrete two-leaf tree with the identity digest:
position 0 verifies against block [0] and rejects [5]. -/
theorem C1_verify_soundness_witness :
    Except.map Prod.fst (MerkleTree.verify (fun l => l)
      (MerkleTree.mk [1,0,0,0,1] [[1,0,0,0,1],[0,0],[0,1]] 1 2) 0
      ([[0],[1]] : List (List Byte))[0]) = Except.ok true ∧
    ([5] ≠ ([[0],[1]] : List (List Byte))[0] →
      Except.map Prod.fst (MerkleTree.verify (fun l => l)
        (MerkleTree.mk [1,0,0,0,1] [[1,0,0,0,1],[0,0],[0,1]] 1 2) 0 [5]) =
        Except.ok false) :=
  C1_verify_soundness (fun l => l) (fun a b hab => hab) [[0],[1]] []
    (MerkleTree.mk [1,0,0,0,1] [[1,0,0,0,1],[0,0],[0,1]] 1 2)
    (by decide)
    (by simp [MerkleTree.build_with_hasher, build_internal_nodes,
      build_internal_loop, build_upper_level, upper_level_walk, hash_leaves,
      hash_leaf_node, hash_internal_node, hash_internal_node_with_one_child,
      writeSlice, calculate_internal_nodes_count, next_power_of_2,
      LEAF_SIG, INTERNAL_SIG])
    0 (by decide) [5]
